import Mathlib

/-!
Verification of the ImageResizer core (ImageResize.cpp / Utils.cpp / Utils.h).

Shallow embedding conventions:
* C `double` values are modelled as exact real (or rational, where no
  transcendental function occurs) numbers.
* C `int` values are modelled as `ℤ`; `PIXEL` (`unsigned char`) sample values
  as `ℕ` (always in `[0,255]` in the source).
* The cast `(PIXEL)x` / `(int)x` of a nonnegative double truncates toward
  zero, i.e. it is `Int.floor` on nonnegative values; every such cast in the
  source is applied to a value already clamped into `[0,255]` or `[0,4095]`.
* Image pixel planes are modelled as total functions; the source's
  heap-allocated `double***` / `PIXEL***` arrays carry no further structure
  that the claims depend on.
-/

namespace ImageResizer

/-- Color spaces, from `enum ColorSpaces` in Utils.h. -/
inductive ColorSpaces
  | RGB
  | YUV444
  | YUV422
  | YUV420
deriving DecidableEq

/-- Edge handling methods, from `enum EdgeMethod` in Utils.h. -/
inductive EdgeMethod
  | REPEAT
  | MIRROR
  | NOCONTRIB
deriving DecidableEq

/-- The C macro `CLAMP(x,a,b) = ((x)<(a) ? (a) : (x)>(b) ? (b) : (x))`
from Utils.h, generic over the ordered scalar type exactly as the macro is. -/
def CCLAMP {α : Type} [LinearOrder α] (x a b : α) : α :=
  if x < a then a else if x > b then b else x

theorem CCLAMP_eq_self {α : Type} [LinearOrder α] {x a b : α} (h1 : a ≤ x) (h2 : x ≤ b) :
    CCLAMP x a b = x := by
  unfold CCLAMP
  rw [if_neg (not_lt.mpr h1), if_neg (not_lt.mpr h2)]

theorem CCLAMP_mem {α : Type} [LinearOrder α] (x : α) {a b : α} (hab : a ≤ b) :
    a ≤ CCLAMP x a b ∧ CCLAMP x a b ≤ b := by
  unfold CCLAMP
  split
  · exact ⟨le_refl a, hab⟩
  · split
    · exact ⟨hab, le_refl b⟩
    · next h1 h2 => exact ⟨not_lt.mp h1, not_lt.mp h2⟩

/-- `HandleEdgeCase` from Utils.cpp (lines 744-769): adjust a 1-D coordinate
`i` for image dimension `imageDimMax` under the edge method.  `MIRROR`
reflects negative coordinates and coordinates beyond the far edge; `REPEAT`
and the `default` case (hence also `NOCONTRIB`) do no pre-adjustment; in all
cases the result is finally clamped to `[0, imageDimMax-1]`. -/
def HandleEdgeCase (i imageDimMax : ℤ) (edgeMethod : EdgeMethod) : ℤ :=
  let xy := i
  let xy :=
    match edgeMethod with
    | .MIRROR =>
        let xy := if xy < 0 then -xy else xy
        if xy ≥ imageDimMax then imageDimMax * 2 - xy - 2 else xy
    | _ => xy
  CCLAMP xy 0 (imageDimMax - 1)

theorem HandleEdgeCase_mem (i imageDimMax : ℤ) (edgeMethod : EdgeMethod)
    (hdim : 1 ≤ imageDimMax) :
    0 ≤ HandleEdgeCase i imageDimMax edgeMethod ∧
      HandleEdgeCase i imageDimMax edgeMethod ≤ imageDimMax - 1 := by
  unfold HandleEdgeCase
  exact CCLAMP_mem _ (by omega)

theorem HandleEdgeCase_id {i imageDimMax : ℤ} (edgeMethod : EdgeMethod)
    (h0 : 0 ≤ i) (h1 : i ≤ imageDimMax - 1) :
    HandleEdgeCase i imageDimMax edgeMethod = i := by
  unfold HandleEdgeCase
  cases edgeMethod <;> simp only
  case MIRROR =>
    rw [if_neg (by omega), if_neg (by omega)]
    exact CCLAMP_eq_self h0 h1
  all_goals exact CCLAMP_eq_self h0 h1

/-- `HandleColorspaceAddress` from Utils.cpp: divide down (x, y) addresses
for planes 1 and 2 of subsampled color spaces. -/
def HandleColorspaceAddress (x y : ℤ) (colorSpace : ColorSpaces) : ℤ × ℤ :=
  match colorSpace with
  | .YUV422 => (x / 2, y)
  | .YUV420 => (x / 2, y / 2)
  | _ => (x, y)

/-- An 8-bit three-plane image, from `IMAGE` in Utils.h restricted to the
`pixArray` storage.  `data plane y x` is `pixArray[plane][y][x]`. -/
structure PImage8 where
  colorSpace : ColorSpaces
  width : ℤ
  height : ℤ
  data : Fin 3 → ℤ → ℤ → ℕ

/-- `SetSubPixel` from Utils.cpp (lines 815-827): silently returns the image
unchanged when the (y, x) coordinate is out of image bounds; otherwise writes
the single sample, dividing the address down for chroma planes. -/
def SetSubPixel (img : PImage8) (y x : ℤ) (plane : Fin 3) (pixVal : ℕ) : PImage8 :=
  if ¬(0 ≤ y ∧ 0 ≤ x ∧ y < img.height ∧ x < img.width) then img
  else
    let a := if plane = 1 ∨ plane = 2 then HandleColorspaceAddress x y img.colorSpace else (x, y)
    { img with
      data := fun p yy xx =>
        if p = plane ∧ yy = a.2 ∧ xx = a.1 then pixVal else img.data p yy xx }

/-- `SetPixel` from Utils.cpp (lines 875-890): silently returns the image
unchanged when the (y, x) coordinate is out of image bounds; otherwise writes
plane 0 at (y, x) and planes 1, 2 at the chroma-divided address. -/
def SetPixel (img : PImage8) (y x : ℤ) (pixel : Fin 3 → ℕ) : PImage8 :=
  if ¬(0 ≤ y ∧ 0 ≤ x ∧ y < img.height ∧ x < img.width) then img
  else
    let a := HandleColorspaceAddress x y img.colorSpace
    { img with
      data := fun p yy xx =>
        if p = 0 then (if yy = y ∧ xx = x then pixel 0 else img.data p yy xx)
        else (if yy = a.2 ∧ xx = a.1 then pixel p else img.data p yy xx) }

/-- `FWD_GAMMA_LUTSIZE` from Utils.h. -/
def FWD_GAMMA_LUTSIZE : ℕ := 256

/-- `BWD_GAMMA_LUTSIZE` from Utils.h. -/
def BWD_GAMMA_LUTSIZE : ℕ := 4096

/-- The full `IMAGE` structure of Utils.h: either the 8-bit plane array or
the double-precision plane array is allocated (`none` models a NULL array
pointer, which is what `DegammaImage` / `GammaImage` test). -/
structure CImage where
  colorSpace : ColorSpaces
  width : ℤ
  height : ℤ
  pixArray : Option (Fin 3 → ℕ → ℕ → ℕ)
  dblPixArray : Option (Fin 3 → ℕ → ℕ → ℝ)

/-- `DegammaImage` from Utils.cpp (lines 572-634).  Validates, in source
order: equal dimensions, 8-bit input storage, double output storage, equal
color spaces; on any failure it returns FALSE together with the untouched
destination image.  On success it fills the destination double array: for
RGB every plane goes through the forward gamma LUT, otherwise only luma does
and chroma is rescaled by `1/(FWD_GAMMA_LUTSIZE-1)`. -/
noncomputable def DegammaImage (imgIn imgOut : CImage) (fwdGamma : ℕ → ℝ) : Bool × CImage :=
  if imgIn.width ≠ imgOut.width ∨ imgIn.height ≠ imgOut.height then (false, imgOut)
  else
    match imgIn.pixArray, imgOut.dblPixArray with
    | none, _ => (false, imgOut)
    | some _, none => (false, imgOut)
    | some a8, some dOld =>
      if imgIn.colorSpace ≠ imgOut.colorSpace then (false, imgOut)
      else
        (true,
          { imgOut with
            dblPixArray := some (fun plane y x =>
              if (y : ℤ) < imgIn.height ∧ (x : ℤ) < imgIn.width then
                let pixval := (CCLAMP ((a8 plane y x : ℤ)) 0 (FWD_GAMMA_LUTSIZE - 1)).toNat
                if imgIn.colorSpace = .RGB then fwdGamma pixval
                else if plane = 0 then fwdGamma pixval
                else (pixval : ℝ) / ((FWD_GAMMA_LUTSIZE : ℝ) - 1)
              else dOld plane y x) })

/-- `GammaImage` from Utils.cpp (lines 638-703).  Validates, in source
order: equal dimensions, double input storage, 8-bit output storage, equal
color spaces; on any failure it returns FALSE together with the untouched
destination image.  On success it fills the destination 8-bit array through
the 4096-entry backward gamma LUT (luma/RGB) or by rescaling by 255
(chroma). -/
noncomputable def GammaImage (imgIn imgOut : CImage) (bwdGamma : ℕ → ℕ) : Bool × CImage :=
  if imgIn.width ≠ imgOut.width ∨ imgIn.height ≠ imgOut.height then (false, imgOut)
  else
    match imgIn.dblPixArray, imgOut.pixArray with
    | none, _ => (false, imgOut)
    | some _, none => (false, imgOut)
    | some dIn, some pOld =>
      if imgIn.colorSpace ≠ imgOut.colorSpace then (false, imgOut)
      else
        (true,
          { imgOut with
            pixArray := some (fun plane y x =>
              if (y : ℤ) < imgIn.height ∧ (x : ℤ) < imgIn.width then
                if imgIn.colorSpace = .RGB ∨ plane = 0 then
                  let pixval :=
                    (Int.floor (CCLAMP (dIn plane y x * ((BWD_GAMMA_LUTSIZE : ℝ) - 1) + 0.5)
                      0 ((BWD_GAMMA_LUTSIZE : ℝ) - 1))).toNat
                  bwdGamma pixval
                else
                  (Int.floor (CCLAMP (dIn plane y x * ((FWD_GAMMA_LUTSIZE : ℝ) - 1) + 0.5)
                    0 ((FWD_GAMMA_LUTSIZE : ℝ) - 1))).toNat
              else pOld plane y x) })

/-- `M_PI` from ImageResize.cpp. -/
def M_PI : ℝ := 3.14159265358979323846

/-- `EPSILON` from ImageResize.cpp. -/
def EPSILON : ℝ := 0.0000125

/-- `LANCZOS2_NUMTAPS` from ImageResize.cpp. -/
def LANCZOS2_NUMTAPS : ℝ := 2.0

/-- `sinc` from ImageResize.cpp (lines 198-209): scales the argument by pi,
then evaluates `sin(x)/x`, with a Taylor fallback on the near-zero range
`(-EPSILON, EPSILON)` to avoid the division singularity. -/
noncomputable def sinc (x : ℝ) : ℝ :=
  let x := x * M_PI
  if x < EPSILON ∧ x > -EPSILON then
    1 + x * x * (-(1 / 6) + x * x / 120)
  else
    Real.sin x / x

/-- `fabsThresh` from ImageResize.cpp (lines 211-216): flushes values of
magnitude below `thresh` to exactly zero. -/
noncomputable def fabsThresh (x thresh : ℝ) : ℝ :=
  if |x| < thresh then 0 else x

/-- `lanczos2Filter` from ImageResize.cpp (lines 219-232): the 2-lobe
Lanczos kernel `sinc(t)*sinc(t/2)` on `|t| < 2`, zero outside, with
near-zero weights thresholded to exactly zero. -/
noncomputable def lanczos2Filter (t : ℝ) : ℝ :=
  let R := LANCZOS2_NUMTAPS
  let t := if t < 0 then -t else t
  if t < R then fabsThresh (sinc t * sinc (t / R)) EPSILON
  else 0

theorem fabsThresh_small {x thresh : ℝ} (h : |x| < thresh) : fabsThresh x thresh = 0 := by
  unfold fabsThresh
  rw [if_pos h]

theorem fabsThresh_big {x thresh : ℝ} (h : thresh ≤ |x|) : fabsThresh x thresh = x := by
  unfold fabsThresh
  rw [if_neg (not_lt.mpr h)]

theorem ite_neg_eq_abs (t : ℝ) : (if t < 0 then -t else t) = |t| := by
  rcases lt_or_ge t 0 with h | h
  · rw [if_pos h, abs_of_neg h]
  · rw [if_neg (not_lt.mpr h), abs_of_nonneg h]

theorem lanczos2Filter_abs_form (t : ℝ) :
    lanczos2Filter t =
      if |t| < LANCZOS2_NUMTAPS then
        fabsThresh (sinc |t| * sinc (|t| / LANCZOS2_NUMTAPS)) EPSILON
      else 0 := by
  simp only [lanczos2Filter, ite_neg_eq_abs]

theorem sinc_zero : sinc 0 = 1 := by
  unfold sinc EPSILON M_PI
  rw [zero_mul, if_pos (by norm_num)]
  ring

theorem abs_sin_MPI : |Real.sin M_PI| ≤ 0.000001 := by
  have h1 : Real.sin M_PI = Real.sin (Real.pi - (Real.pi - M_PI)) := by
    congr 1
    ring
  rw [h1, Real.sin_pi_sub]
  calc |Real.sin (Real.pi - M_PI)| ≤ |Real.pi - M_PI| := Real.abs_sin_le_abs
    _ ≤ 0.000001 := by
        have hgt := Real.pi_gt_d6
        have hlt := Real.pi_lt_d6
        rw [abs_le]
        unfold M_PI
        constructor <;> norm_num <;> linarith

theorem abs_sinc_one : |sinc 1| ≤ 0.0000004 := by
  have hpi : (3.14 : ℝ) ≤ M_PI := by unfold M_PI; norm_num
  have hne : ¬(1 * M_PI < EPSILON ∧ 1 * M_PI > -EPSILON) := by
    unfold EPSILON
    intro h
    linarith [h.1]
  unfold sinc
  rw [if_neg hne, one_mul, abs_div]
  have habs := abs_sin_MPI
  have hMpos : (0 : ℝ) < M_PI := by linarith
  rw [abs_of_pos hMpos]
  rw [div_le_iff hMpos]
  nlinarith

theorem abs_sinc_half : |sinc (1 / 2)| ≤ 1 := by
  have hpi : (3.14 : ℝ) ≤ M_PI := by unfold M_PI; norm_num
  have hne : ¬(1 / 2 * M_PI < EPSILON ∧ 1 / 2 * M_PI > -EPSILON) := by
    unfold EPSILON
    intro h
    linarith [h.1]
  unfold sinc
  rw [if_neg hne, abs_div]
  have hx : (1 : ℝ) ≤ 1 / 2 * M_PI := by linarith
  rw [abs_of_pos (by linarith : (0:ℝ) < 1 / 2 * M_PI)]
  rw [div_le_one (by linarith)]
  calc |Real.sin (1 / 2 * M_PI)| ≤ 1 := Real.abs_sin_le_one _
    _ ≤ 1 / 2 * M_PI := hx

theorem lanczos_core_one : fabsThresh (sinc 1 * sinc (1 / 2)) EPSILON = 0 := by
  apply fabsThresh_small
  rw [abs_mul]
  have h1 := abs_sinc_one
  have h2 := abs_sinc_half
  have hm : |sinc 1| * |sinc (1 / 2)| ≤ 0.0000004 * 1 :=
    mul_le_mul h1 h2 (abs_nonneg _) (by norm_num)
  unfold EPSILON
  rw [show ((1.25e-5 : ℝ)) = 0.0000125 from by norm_num]
  linarith

theorem lanczos2Filter_zero : lanczos2Filter 0 = 1 := by
  rw [lanczos2Filter_abs_form]
  unfold LANCZOS2_NUMTAPS
  rw [abs_zero, if_pos (by norm_num)]
  rw [show (0 : ℝ) / 2.0 = 0 from by norm_num, sinc_zero, mul_one]
  apply fabsThresh_big
  unfold EPSILON
  rw [abs_one]
  norm_num

theorem lanczos2Filter_one : lanczos2Filter 1 = 0 := by
  rw [lanczos2Filter_abs_form]
  unfold LANCZOS2_NUMTAPS
  rw [abs_one, if_pos (by norm_num)]
  rw [show (1 : ℝ) / 2.0 = 1 / 2 from by norm_num]
  exact lanczos_core_one

theorem lanczos2Filter_neg_one : lanczos2Filter (-1) = 0 := by
  rw [lanczos2Filter_abs_form]
  unfold LANCZOS2_NUMTAPS
  rw [show |(-1 : ℝ)| = 1 from by norm_num, if_pos (by norm_num)]
  rw [show (1 : ℝ) / 2.0 = 1 / 2 from by norm_num]
  exact lanczos_core_one

theorem lanczos2Filter_tail {t : ℝ} (ht : 2 ≤ |t|) : lanczos2Filter t = 0 := by
  rw [lanczos2Filter_abs_form]
  unfold LANCZOS2_NUMTAPS
  rw [if_neg]
  norm_num
  linarith

theorem lanczos2Filter_two : lanczos2Filter 2 = 0 :=
  lanczos2Filter_tail (by norm_num)

theorem lanczos2Filter_neg_two : lanczos2Filter (-2) = 0 :=
  lanczos2Filter_tail (by norm_num)

/-- One row of the `ContribTable` of ImageResize.h, as built for one output
index: the `(contribPixPos, filterWeights)` pairs in append order, the
count `numContribPixels` and the accumulated `weightsSum`. -/
structure RowState where
  entries : List (ℤ × ℝ)
  numContribPixels : ℕ
  weightsSum : ℝ

/-- One iteration of the inner `j` loop of `MakeContribTable`
(ImageResize.cpp lines 312-330): skip out-of-range contributors under
NOCONTRIB, skip zero weights, otherwise append the edge-resolved source
index with its weight and accumulate the weight sum. -/
noncomputable def contribStep (inDimSize : ℤ) (edgeMethod : EdgeMethod)
    (center filterScale : ℝ) (st : RowState) (j : ℤ) : RowState :=
  if edgeMethod = .NOCONTRIB ∧ (j < 0 ∨ j > inDimSize) then st
  else
    let weight := lanczos2Filter ((center - (j : ℝ)) * filterScale)
    if weight = 0 then st
    else
      { entries := st.entries ++ [(HandleEdgeCase j inDimSize edgeMethod, weight)]
        numContribPixels := st.numContribPixels + 1
        weightsSum := st.weightsSum + weight }

/-- The body of the outer `i` loop of `MakeContribTable` (ImageResize.cpp
lines 268-331): support sizing from the scaling factor, contributor extent
`[floor(center - scaledHalfTaps), ceil(center + scaledHalfTaps)]`, then the
inner loop over candidate source indices. -/
noncomputable def contribRowAux (inDimSize : ℕ) (edgeMethod : EdgeMethod)
    (center filterScale : ℝ) (left right : ℤ) : RowState :=
  ((List.range (right + 1 - left).toNat).map (fun (k : ℕ) => left + (k : ℤ))).foldl
    (contribStep (inDimSize : ℤ) edgeMethod center filterScale) ⟨[], 0, 0⟩

noncomputable def contribRow (inDimSize outDimSize : ℕ) (edgeMethod : EdgeMethod)
    (i : ℕ) : RowState :=
  let scale : ℝ := (outDimSize : ℝ) / (inDimSize : ℝ)
  let filterScale : ℝ := if scale > 1 then 1 else scale
  let scaledHalfTaps : ℝ := if scale > 1 then LANCZOS2_NUMTAPS else LANCZOS2_NUMTAPS / scale
  let center : ℝ := ((i : ℝ) + 0.5) / scale - 0.5
  let left : ℤ := ⌊center - scaledHalfTaps⌋
  let right : ℤ := ⌈center + scaledHalfTaps⌉
  contribRowAux inDimSize edgeMethod center filterScale left right

theorem contribRow_def (inDimSize outDimSize : ℕ) (edgeMethod : EdgeMethod) (i : ℕ) :
    contribRow inDimSize outDimSize edgeMethod i =
      contribRowAux inDimSize edgeMethod
        (((i : ℝ) + 0.5) / ((outDimSize : ℝ) / (inDimSize : ℝ)) - 0.5)
        (if ((outDimSize : ℝ) / (inDimSize : ℝ)) > 1 then 1
          else (outDimSize : ℝ) / (inDimSize : ℝ))
        ⌊(((i : ℝ) + 0.5) / ((outDimSize : ℝ) / (inDimSize : ℝ)) - 0.5) -
          (if ((outDimSize : ℝ) / (inDimSize : ℝ)) > 1 then LANCZOS2_NUMTAPS
            else LANCZOS2_NUMTAPS / ((outDimSize : ℝ) / (inDimSize : ℝ)))⌋
        ⌈(((i : ℝ) + 0.5) / ((outDimSize : ℝ) / (inDimSize : ℝ)) - 0.5) +
          (if ((outDimSize : ℝ) / (inDimSize : ℝ)) > 1 then LANCZOS2_NUMTAPS
            else LANCZOS2_NUMTAPS / ((outDimSize : ℝ) / (inDimSize : ℝ)))⌉ := rfl

/-- `MakeContribTable` from ImageResize.cpp: the whole table is the family
of rows indexed by output coordinate. -/
noncomputable def MakeContribTable (inDimSize outDimSize : ℕ)
    (edgeMethod : EdgeMethod) : ℕ → RowState :=
  fun i => contribRow inDimSize outDimSize edgeMethod i

theorem contribStep_eq (d : ℤ) (e : EdgeMethod) (c f : ℝ) (st : RowState) (j : ℤ) :
    contribStep d e c f st j = st ∨
    (lanczos2Filter ((c - (j : ℝ)) * f) ≠ 0 ∧
      contribStep d e c f st j =
        { entries := st.entries ++ [(HandleEdgeCase j d e, lanczos2Filter ((c - (j : ℝ)) * f))]
          numContribPixels := st.numContribPixels + 1
          weightsSum := st.weightsSum + lanczos2Filter ((c - (j : ℝ)) * f) }) := by
  simp only [contribStep]
  split
  · left; rfl
  · split
    · left; rfl
    · next h => exact Or.inr ⟨h, rfl⟩

theorem contribStep_of_zero_weight (d : ℤ) (e : EdgeMethod) (c f : ℝ) (st : RowState) (j : ℤ)
    (hw : lanczos2Filter ((c - (j : ℝ)) * f) = 0) :
    contribStep d e c f st j = st := by
  simp only [contribStep]
  rcases Classical.em (e = .NOCONTRIB ∧ (j < 0 ∨ j > d)) with h | h
  · rw [if_pos h]
  · rw [if_neg h, if_pos hw]

theorem contribStep_of_nonzero (d : ℤ) (e : EdgeMethod) (c f : ℝ) (st : RowState) (j : ℤ)
    (hskip : ¬(e = .NOCONTRIB ∧ (j < 0 ∨ j > d)))
    (hw : lanczos2Filter ((c - (j : ℝ)) * f) ≠ 0) :
    contribStep d e c f st j =
      { entries := st.entries ++ [(HandleEdgeCase j d e, lanczos2Filter ((c - (j : ℝ)) * f))]
        numContribPixels := st.numContribPixels + 1
        weightsSum := st.weightsSum + lanczos2Filter ((c - (j : ℝ)) * f) } := by
  simp only [contribStep]
  rw [if_neg hskip, if_neg hw]

theorem contribFold_sum_invariant (inDimSize : ℤ) (edgeMethod : EdgeMethod)
    (center filterScale : ℝ) :
    ∀ (l : List ℤ) (st : RowState),
      st.weightsSum = (st.entries.map Prod.snd).sum →
      st.numContribPixels = st.entries.length →
      (l.foldl (contribStep inDimSize edgeMethod center filterScale) st).weightsSum =
        (((l.foldl (contribStep inDimSize edgeMethod center filterScale) st).entries.map
          Prod.snd).sum) ∧
      (l.foldl (contribStep inDimSize edgeMethod center filterScale) st).numContribPixels =
        (l.foldl (contribStep inDimSize edgeMethod center filterScale) st).entries.length := by
  intro l
  induction l with
  | nil => intro st h1 h2; exact ⟨h1, h2⟩
  | cons j rest ih =>
    intro st h1 h2
    rw [List.foldl_cons]
    rcases contribStep_eq inDimSize edgeMethod center filterScale st j with h | ⟨_, h⟩ <;>
      rw [h] <;> apply ih <;> simp [h1, h2]

theorem contribFold_pos_invariant (inDimSize : ℤ) (edgeMethod : EdgeMethod)
    (center filterScale : ℝ) (hdim : 1 ≤ inDimSize) :
    ∀ (l : List ℤ) (st : RowState),
      (∀ e ∈ st.entries, 0 ≤ e.1 ∧ e.1 ≤ inDimSize - 1) →
      ∀ e ∈ (l.foldl (contribStep inDimSize edgeMethod center filterScale) st).entries,
        0 ≤ e.1 ∧ e.1 ≤ inDimSize - 1 := by
  intro l
  induction l with
  | nil => intro st h; exact h
  | cons j rest ih =>
    intro st h
    rw [List.foldl_cons]
    rcases contribStep_eq inDimSize edgeMethod center filterScale st j with heq | ⟨_, heq⟩ <;>
      rw [heq]
    · exact ih st h
    · apply ih
      intro e he
      simp only [List.mem_append, List.mem_singleton] at he
      rcases he with he | he
      · exact h e he
      · rw [he]
        exact HandleEdgeCase_mem _ _ _ hdim

theorem contribRow_identity (d : ℕ) (hd : 1 ≤ d) (edgeMethod : EdgeMethod)
    (i : ℕ) (hi : i < d) :
    contribRow d d edgeMethod i = ⟨[((i : ℤ), 1)], 1, 1⟩ := by
  have hdR : ((d : ℕ) : ℝ) ≠ 0 := Nat.cast_ne_zero.mpr (by omega)
  have hlt : ¬((1 : ℝ) > 1) := by norm_num
  rw [contribRow_def]
  rw [div_self hdR]
  simp only [ite_self, if_neg hlt, LANCZOS2_NUMTAPS]
  have hcenter : ((i : ℝ) + 0.5) / 1 - 0.5 = ((i : ℤ) : ℝ) := by push_cast; ring
  rw [hcenter]
  have hleft : ⌊((i : ℤ) : ℝ) - 2.0 / 1⌋ = (i : ℤ) - 2 := by
    rw [show ((i : ℤ) : ℝ) - 2.0 / 1 = (((i : ℤ) - 2 : ℤ) : ℝ) from by push_cast; ring]
    exact Int.floor_intCast _
  have hright : ⌈((i : ℤ) : ℝ) + 2.0 / 1⌉ = (i : ℤ) + 2 := by
    rw [show ((i : ℤ) : ℝ) + 2.0 / 1 = (((i : ℤ) + 2 : ℤ) : ℝ) from by push_cast; ring]
    exact Int.ceil_intCast _
  rw [hleft, hright]
  unfold contribRowAux
  rw [show ((i : ℤ) + 2 + 1 - ((i : ℤ) - 2)).toNat = 5 from by omega]
  rw [show List.range 5 = [0, 1, 2, 3, 4] from rfl]
  simp only [List.map_cons, List.map_nil, List.foldl_cons, List.foldl_nil]
  rw [contribStep_of_zero_weight _ _ _ _ _ _
    (by rw [show (((i : ℤ) : ℝ) - (((i : ℤ) - 2 + (4 : ℕ) : ℤ) : ℝ)) * 1 = -2 from by
          push_cast; ring]
        exact lanczos2Filter_neg_two)]
  rw [contribStep_of_zero_weight _ _ _ _ _ _
    (by rw [show (((i : ℤ) : ℝ) - (((i : ℤ) - 2 + (3 : ℕ) : ℤ) : ℝ)) * 1 = -1 from by
          push_cast; ring]
        exact lanczos2Filter_neg_one)]
  rw [contribStep_of_nonzero _ _ _ _ _ _
    (by rintro ⟨-, h | h⟩ <;> omega)
    (by rw [show (((i : ℤ) : ℝ) - (((i : ℤ) - 2 + (2 : ℕ) : ℤ) : ℝ)) * 1 = 0 from by
          push_cast; ring]
        rw [lanczos2Filter_zero]
        norm_num)]
  rw [contribStep_of_zero_weight _ _ _ _ _ _
    (by rw [show (((i : ℤ) : ℝ) - (((i : ℤ) - 2 + (1 : ℕ) : ℤ) : ℝ)) * 1 = 1 from by
          push_cast; ring]
        exact lanczos2Filter_one)]
  rw [contribStep_of_zero_weight _ _ _ _ _ _
    (by rw [show (((i : ℤ) : ℝ) - (((i : ℤ) - 2 + (0 : ℕ) : ℤ) : ℝ)) * 1 = 2 from by
          push_cast; ring]
        exact lanczos2Filter_two)]
  have hid : HandleEdgeCase ((i : ℤ) - 2 + ((2 : ℕ) : ℤ)) (d : ℤ) edgeMethod = (i : ℤ) := by
    rw [show ((i : ℤ) - 2 + ((2 : ℕ) : ℤ)) = (i : ℤ) from by push_cast; ring]
    exact HandleEdgeCase_id edgeMethod (by omega) (by omega)
  rw [show (((i : ℤ) : ℝ) - (((i : ℤ) - 2 + (2 : ℕ) : ℤ) : ℝ)) * 1 = 0 from by push_cast; ring]
  rw [lanczos2Filter_zero, hid]
  norm_num

end ImageResizer

namespace ImageResizer

/-- C5: for every image dimension `dim ≥ 1`, `HandleEdgeCase` maps coordinate
-1 under MIRROR to the same index as coordinate +1, maps -1 under REPEAT to
index 0, and under both policies every input coordinate resolves to an index
inside `[0, dim-1]`. -/
theorem C5_handleEdgeCase (dim : ℤ) (hdim : 1 ≤ dim) :
    HandleEdgeCase (-1) dim .MIRROR = HandleEdgeCase 1 dim .MIRROR ∧
    HandleEdgeCase (-1) dim .REPEAT = 0 ∧
    ∀ i : ℤ,
      (0 ≤ HandleEdgeCase i dim .MIRROR ∧ HandleEdgeCase i dim .MIRROR ≤ dim - 1) ∧
      (0 ≤ HandleEdgeCase i dim .REPEAT ∧ HandleEdgeCase i dim .REPEAT ≤ dim - 1) := by
  refine ⟨?_, ?_, fun i => ⟨HandleEdgeCase_mem _ _ _ hdim, HandleEdgeCase_mem _ _ _ hdim⟩⟩
  · unfold HandleEdgeCase CCLAMP
    simp only
    rw [if_pos (by omega : (-1 : ℤ) < 0)]
    norm_num
  · unfold HandleEdgeCase CCLAMP
    simp only
    rw [if_pos (by omega : (-1 : ℤ) < 0)]

/-- Witness for C5 at dim = 3 and probe coordinate 7. -/
theorem C5_handleEdgeCase_witness :
    HandleEdgeCase (-1) 3 .MIRROR = HandleEdgeCase 1 3 .MIRROR ∧
    HandleEdgeCase (-1) 3 .REPEAT = 0 ∧
    (0 ≤ HandleEdgeCase 7 3 .MIRROR ∧ HandleEdgeCase 7 3 .MIRROR ≤ 3 - 1) ∧
    (0 ≤ HandleEdgeCase 7 3 .REPEAT ∧ HandleEdgeCase 7 3 .REPEAT ≤ 3 - 1) := by
  have h := C5_handleEdgeCase 3 (by norm_num)
  exact ⟨h.1, h.2.1, (h.2.2 7).1, (h.2.2 7).2⟩

/-- C9: out-of-bounds writes are silent no-ops: for every image and every
coordinate (y, x) with `y < 0`, `x < 0`, `y ≥ height`, or `x ≥ width`,
`SetPixel` and `SetSubPixel` leave the image entirely unchanged. -/
theorem C9_oob_writes_noop (img : PImage8) (y x : ℤ)
    (hoob : y < 0 ∨ x < 0 ∨ y ≥ img.height ∨ x ≥ img.width) :
    (∀ pixel, SetPixel img y x pixel = img) ∧
    (∀ plane pixVal, SetSubPixel img y x plane pixVal = img) := by
  constructor
  · intro pixel
    unfold SetPixel
    rw [if_pos (by omega)]
  · intro plane pixVal
    unfold SetSubPixel
    rw [if_pos (by omega)]

/-- C7: `DegammaImage` and `GammaImage` succeed exactly when the two images
have equal dimensions, the required storage on each side (8-bit in / double
out for degamma, double in / 8-bit out for gamma) and the same color space;
on any mismatch they return FALSE and the destination image is returned
completely unchanged. -/
theorem C7_gamma_stage_validation (imgIn imgOut : CImage)
    (fwdGamma : ℕ → ℝ) (bwdGamma : ℕ → ℕ) :
    ((DegammaImage imgIn imgOut fwdGamma).1 = true ↔
      (imgIn.width = imgOut.width ∧ imgIn.height = imgOut.height ∧
        imgIn.pixArray ≠ none ∧ imgOut.dblPixArray ≠ none ∧
        imgIn.colorSpace = imgOut.colorSpace)) ∧
    ((DegammaImage imgIn imgOut fwdGamma).1 = false →
      (DegammaImage imgIn imgOut fwdGamma).2 = imgOut) ∧
    ((GammaImage imgIn imgOut bwdGamma).1 = true ↔
      (imgIn.width = imgOut.width ∧ imgIn.height = imgOut.height ∧
        imgIn.dblPixArray ≠ none ∧ imgOut.pixArray ≠ none ∧
        imgIn.colorSpace = imgOut.colorSpace)) ∧
    ((GammaImage imgIn imgOut bwdGamma).1 = false →
      (GammaImage imgIn imgOut bwdGamma).2 = imgOut) := by
  refine ⟨?_, ?_, ?_, ?_⟩
  · unfold DegammaImage
    rcases h8 : imgIn.pixArray with _ | a8 <;>
      rcases hod : imgOut.dblPixArray with _ | dOld <;>
      by_cases hw : imgIn.width = imgOut.width <;>
      by_cases hh : imgIn.height = imgOut.height <;>
      by_cases hcs : imgIn.colorSpace = imgOut.colorSpace <;>
      simp [h8, hod, hw, hh, hcs]
  · unfold DegammaImage
    rcases h8 : imgIn.pixArray with _ | a8 <;>
      rcases hod : imgOut.dblPixArray with _ | dOld <;>
      by_cases hw : imgIn.width = imgOut.width <;>
      by_cases hh : imgIn.height = imgOut.height <;>
      by_cases hcs : imgIn.colorSpace = imgOut.colorSpace <;>
      simp [h8, hod, hw, hh, hcs]
  · unfold GammaImage
    rcases hd : imgIn.dblPixArray with _ | dIn <;>
      rcases ho8 : imgOut.pixArray with _ | pOld <;>
      by_cases hw : imgIn.width = imgOut.width <;>
      by_cases hh : imgIn.height = imgOut.height <;>
      by_cases hcs : imgIn.colorSpace = imgOut.colorSpace <;>
      simp [hd, ho8, hw, hh, hcs]
  · unfold GammaImage
    rcases hd : imgIn.dblPixArray with _ | dIn <;>
      rcases ho8 : imgOut.pixArray with _ | pOld <;>
      by_cases hw : imgIn.width = imgOut.width <;>
      by_cases hh : imgIn.height = imgOut.height <;>
      by_cases hcs : imgIn.colorSpace = imgOut.colorSpace <;>
      simp [hd, ho8, hw, hh, hcs]

/-- Witness for C7 on concrete mismatching images (different widths): the
destination comes back unchanged from both stages. -/
theorem C7_gamma_stage_validation_witness :
    (DegammaImage ⟨.RGB, 2, 2, some (fun _ _ _ => 0), none⟩
      ⟨.RGB, 3, 2, none, some (fun _ _ _ => 0)⟩ (fun _ => 0)).2 =
      ⟨.RGB, 3, 2, none, some (fun _ _ _ => 0)⟩ ∧
    (GammaImage ⟨.RGB, 2, 2, some (fun _ _ _ => 0), none⟩
      ⟨.RGB, 3, 2, none, some (fun _ _ _ => 0)⟩ (fun _ => 0)).2 =
      ⟨.RGB, 3, 2, none, some (fun _ _ _ => 0)⟩ := by
  have h := C7_gamma_stage_validation ⟨.RGB, 2, 2, some (fun _ _ _ => 0), none⟩
    ⟨.RGB, 3, 2, none, some (fun _ _ _ => 0)⟩ (fun _ => 0) (fun _ => 0)
  refine ⟨h.2.1 ?_, h.2.2.2 ?_⟩
  · unfold DegammaImage
    rw [if_pos (by norm_num)]
  · unfold GammaImage
    rw [if_pos (by norm_num)]

/-- Witness for C9 on a concrete 2x2 image at (y, x) = (2, 0). -/
theorem C9_oob_writes_noop_witness :
    SetPixel ⟨.RGB, 2, 2, fun _ _ _ => 0⟩ 2 0 (fun _ => 5) = ⟨.RGB, 2, 2, fun _ _ _ => 0⟩ ∧
    SetSubPixel ⟨.RGB, 2, 2, fun _ _ _ => 0⟩ 2 0 1 7 = ⟨.RGB, 2, 2, fun _ _ _ => 0⟩ :=
  ⟨(C9_oob_writes_noop ⟨.RGB, 2, 2, fun _ _ _ => 0⟩ 2 0
      (by right; right; left; norm_num)).1 (fun _ => 5),
    (C9_oob_writes_noop ⟨.RGB, 2, 2, fun _ _ _ => 0⟩ 2 0
      (by right; right; left; norm_num)).2 1 7⟩

end ImageResizer

namespace ImageResizer

/-- C6: the Lanczos-2 filter returns exactly 1.0 at offset 0, exactly 0.0 at
the nonzero integer offsets inside its support (t = 1 and t = -1, where the
near-zero windowed-sinc value is thresholded to exact zero), and 0.0 at
every offset of magnitude at least 2. -/
theorem C6_lanczos2_integer_offsets :
    lanczos2Filter 0 = 1 ∧
    lanczos2Filter 1 = 0 ∧
    lanczos2Filter (-1) = 0 ∧
    ∀ t : ℝ, 2 ≤ |t| → lanczos2Filter t = 0 :=
  ⟨lanczos2Filter_zero, lanczos2Filter_one, lanczos2Filter_neg_one,
    fun _ ht => lanczos2Filter_tail ht⟩

/-- Witness for C6, with the tail clause instantiated at t = 3. -/
theorem C6_lanczos2_integer_offsets_witness :
    lanczos2Filter 0 = 1 ∧ lanczos2Filter 3 = 0 :=
  ⟨C6_lanczos2_integer_offsets.1,
    C6_lanczos2_integer_offsets.2.2.2 3 (by norm_num)⟩

/-- C4: for every contribution table built by `MakeContribTable` and every
output index `i` in `[0, outDimSize-1]`, the stored `weightsSum` equals
exactly the sum of the `numContribPixels` weights appended into
`filterWeights` (and `numContribPixels` counts exactly those weights). -/
theorem C4_weightsSum_exact (inDimSize outDimSize : ℕ) (edgeMethod : EdgeMethod)
    (i : ℕ) (hi : i < outDimSize) :
    (MakeContribTable inDimSize outDimSize edgeMethod i).weightsSum =
      ((MakeContribTable inDimSize outDimSize edgeMethod i).entries.map Prod.snd).sum ∧
    (MakeContribTable inDimSize outDimSize edgeMethod i).numContribPixels =
      (MakeContribTable inDimSize outDimSize edgeMethod i).entries.length := by
  unfold MakeContribTable
  rw [contribRow_def]
  unfold contribRowAux
  exact contribFold_sum_invariant _ _ _ _ _ ⟨[], 0, 0⟩ rfl rfl

/-- Witness for C4 at inDimSize = 2, outDimSize = 3, i = 1. -/
theorem C4_weightsSum_exact_witness :
    (MakeContribTable 2 3 .REPEAT 1).weightsSum =
      ((MakeContribTable 2 3 .REPEAT 1).entries.map Prod.snd).sum ∧
    (MakeContribTable 2 3 .REPEAT 1).numContribPixels =
      (MakeContribTable 2 3 .REPEAT 1).entries.length :=
  C4_weightsSum_exact 2 3 .REPEAT 1 (by norm_num)

/-- C10: for every edge policy and all `inDimSize ≥ 1`, `outDimSize ≥ 1`,
every source index stored in a contribution table row built by
`MakeContribTable` lies within `[0, inDimSize-1]`: the filter passes never
index outside the source plane.  (Under NOCONTRIB the candidate at
`j = inDimSize` is not skipped, since the source skips only `j > inDimSize`,
but it is clamped into range by `HandleEdgeCase` like every other stored
index.) -/
theorem C10_contrib_positions_in_range (inDimSize outDimSize : ℕ)
    (edgeMethod : EdgeMethod) (hin : 1 ≤ inDimSize) (hout : 1 ≤ outDimSize) :
    ∀ i : ℕ, ∀ e ∈ (MakeContribTable inDimSize outDimSize edgeMethod i).entries,
      0 ≤ e.1 ∧ e.1 ≤ (inDimSize : ℤ) - 1 := by
  intro i e he
  unfold MakeContribTable at he
  rw [contribRow_def] at he
  unfold contribRowAux at he
  exact contribFold_pos_invariant _ _ _ _ (by exact_mod_cast hin) _ ⟨[], 0, 0⟩
    (by intro e h; simp at h) e he

/-- Witness for C10 at inDimSize = outDimSize = 2, NOCONTRIB, i = 0, whose
row is the single unit-weight entry at source index 0. -/
theorem C10_contrib_positions_in_range_witness :
    0 ≤ (((0 : ℤ), (1 : ℝ))).1 ∧ (((0 : ℤ), (1 : ℝ))).1 ≤ ((2 : ℕ) : ℤ) - 1 := by
  apply C10_contrib_positions_in_range 2 2 .NOCONTRIB (by norm_num) (by norm_num) 0
  unfold MakeContribTable
  rw [contribRow_identity 2 (by norm_num) .NOCONTRIB 0 (by norm_num)]
  simp

end ImageResizer

namespace ImageResizer

/-- `PIXMAX` from Utils.h. -/
def PIXMAX : ℕ := 255

theorem CCLAMP_eq_min_max {α : Type} [LinearOrder α] {x a b : α} (hab : a ≤ b) :
    CCLAMP x a b = min (max x a) b := by
  unfold CCLAMP
  split
  · next h => rw [max_eq_right h.le, min_eq_left hab]
  · split
    · next h1 h2 => rw [max_eq_left (not_lt.mp h1), min_eq_right h2.le]
    · next h1 h2 => rw [max_eq_left (not_lt.mp h1), min_eq_left (not_lt.mp h2)]

/-- The backward gamma LUT entry built in `main` (ImageResize.cpp lines
556-559): `bwdGamma[i] = (PIXEL)(CLAMP(PIXMAX * pow(i / BWD_GAMMA_LUTSIZE,
1/gamma) + 0.5, 0, PIXMAX))`.  The `(PIXEL)` cast truncates the clamped
nonnegative double, i.e. takes its floor. -/
noncomputable def bwdGammaEntry (gamma : ℝ) (i : ℕ) : ℤ :=
  ⌊CCLAMP ((PIXMAX : ℝ) * ((i : ℝ) / (BWD_GAMMA_LUTSIZE : ℝ)) ^ (1 / gamma) + 0.5)
    0 (PIXMAX : ℝ)⌋

/-- The backward-table formula exactly as the spec sentence states it,
with denominator 4095: `clamp(255 * (i/4095)^(1/gamma) + 0.5, 0, 255)`
converted to an 8-bit sample. -/
noncomputable def specBwdGammaEntry (gamma : ℝ) (i : ℕ) : ℤ :=
  ⌊min (max ((255 : ℝ) * ((i : ℝ) / 4095) ^ (1 / gamma) + 0.5) 0) 255⌋

/-- C1 counterexample: at gamma = 1 and i = 2305 the code computes
`floor(255 * 2305/4096 + 0.5) = 143` while the spec formula with
denominator 4095 gives `floor(255 * 2305/4095 + 0.5) = 144`. -/
theorem C1_bwdGamma_counterexample :
    bwdGammaEntry 1 2305 = 143 ∧ specBwdGammaEntry 1 2305 = 144 ∧
    bwdGammaEntry 1 2305 ≠ specBwdGammaEntry 1 2305 := by
  have h1 : bwdGammaEntry 1 2305 = 143 := by
    unfold bwdGammaEntry PIXMAX BWD_GAMMA_LUTSIZE
    rw [show (1 : ℝ) / 1 = 1 from by norm_num, Real.rpow_one]
    rw [CCLAMP_eq_self (by norm_num) (by norm_num)]
    rw [Int.floor_eq_iff]
    norm_num
  have h2 : specBwdGammaEntry 1 2305 = 144 := by
    unfold specBwdGammaEntry
    rw [show (1 : ℝ) / 1 = 1 from by norm_num, Real.rpow_one]
    rw [max_eq_left (by norm_num), min_eq_left (by norm_num)]
    rw [Int.floor_eq_iff]
    norm_num
  exact ⟨h1, h2, by rw [h1, h2]; norm_num⟩

/-- C1 amended: for every `i` in `[0, 4095]` and `gamma > 0` the backward
table entry equals `clamp(255 * (i/4096)^(1/gamma) + 0.5, 0, 255)` converted
to an 8-bit sample (denominator `BWD_GAMMA_LUTSIZE = 4096`, not 4095), and
in particular `bwdGamma[4095] = 255` when `gamma = 1.0`. -/
theorem C1_bwdGamma_amended :
    (∀ gamma : ℝ, 0 < gamma → ∀ i : ℕ, i < BWD_GAMMA_LUTSIZE →
      bwdGammaEntry gamma i =
        ⌊min (max ((255 : ℝ) * ((i : ℝ) / 4096) ^ (1 / gamma) + 0.5) 0) 255⌋) ∧
    bwdGammaEntry 1 4095 = 255 := by
  constructor
  · intro gamma _hgamma i _hi
    unfold bwdGammaEntry PIXMAX BWD_GAMMA_LUTSIZE
    rw [CCLAMP_eq_min_max (by norm_num)]
    norm_num
  · unfold bwdGammaEntry PIXMAX BWD_GAMMA_LUTSIZE
    rw [show (1 : ℝ) / 1 = 1 from by norm_num, Real.rpow_one]
    unfold CCLAMP
    rw [if_neg (by norm_num), if_pos (by norm_num)]
    norm_num

/-- Witness for C1 at gamma = 2, i = 100. -/
theorem C1_bwdGamma_amended_witness :
    bwdGammaEntry 2 100 =
      ⌊min (max ((255 : ℝ) * (((100 : ℕ) : ℝ) / 4096) ^ (1 / (2 : ℝ)) + 0.5) 0) 255⌋ :=
  C1_bwdGamma_amended.1 2 (by norm_num) 100 (by decide)

end ImageResizer

namespace ImageResizer

/-- The `(PIXEL)` cast applied to a CLAMPed double in the pixel converters
of Utils.cpp: clamp into `[0, PIXMAX]`, then truncate (floor, since the
clamped value is nonnegative). -/
def pixelCast (x : ℚ) : ℤ := ⌊CCLAMP x 0 255⌋

theorem pixelCast_eq_floor {x : ℚ} (h0 : 0 ≤ x) (h255 : x ≤ 255) :
    pixelCast x = ⌊x⌋ := by
  unfold pixelCast
  rw [CCLAMP_eq_self h0 h255]

theorem pixelCast_close {x : ℚ} {n k : ℤ} (hn0 : 0 ≤ n) (hn255 : n ≤ 255) (hk : 1 ≤ k)
    (hl : (n : ℚ) - k < x) (hu : x < (n : ℚ) + k + 1) :
    n - k ≤ pixelCast x ∧ pixelCast x ≤ n + k := by
  unfold pixelCast CCLAMP
  split
  · next h =>
    have hx0 : (n : ℚ) - k < 0 := lt_trans hl h
    have hz : n - k < 0 := by exact_mod_cast hx0
    rw [Int.floor_zero]
    omega
  · split
    · next h1 h2 =>
      have hx255 : (255 : ℚ) < (n : ℚ) + k + 1 := lt_trans h2 hu
      have hz : (255 : ℤ) < n + k + 1 := by exact_mod_cast hx255
      rw [show ⌊(255 : ℚ)⌋ = 255 from by norm_num]
      omega
    · next h1 h2 =>
      constructor
      · apply Int.le_floor.mpr
        calc ((n - k : ℤ) : ℚ) = (n : ℚ) - k := by push_cast; ring
          _ ≤ x := hl.le
      · have : ⌊x⌋ < n + k + 1 := Int.floor_lt.mpr (by push_cast at hu ⊢; linarith)
        omega

/-- `RGBPixel2YUV` from Utils.cpp (lines 248-261): Rec.601 integer-standard
matrix applied in double precision, `/256`, channel offset, `+0.5` and
clamp-cast to 8 bits.  Clamps only to `[0, PIXMAX]`. -/
def RGBPixel2YUV (r g b : ℤ) : ℤ × ℤ × ℤ :=
  ( pixelCast ((65.738 * (r : ℚ) + 129.057 * (g : ℚ) + 25.064 * (b : ℚ)) / 256 + 16 + 0.5)
  , pixelCast (((-37.946) * (r : ℚ) + (-74.494) * (g : ℚ) + 112.439 * (b : ℚ)) / 256 + 128 + 0.5)
  , pixelCast ((112.439 * (r : ℚ) + (-94.154) * (g : ℚ) + (-18.285) * (b : ℚ)) / 256 + 128 + 0.5) )

/-- `YUVPixel2RGB` from Utils.cpp (lines 224-243): remove the channel
offsets, apply the Rec.601 inverse matrix in double precision, `/256`,
`+0.5` and clamp-cast to 8 bits. -/
def YUVPixel2RGB (y u v : ℤ) : ℤ × ℤ × ℤ :=
  ( pixelCast ((298.082 * ((y : ℚ) + (-16)) + 0 * ((u : ℚ) + (-128)) +
      408.583 * ((v : ℚ) + (-128))) / 256 + 0.5)
  , pixelCast ((298.082 * ((y : ℚ) + (-16)) + (-100.291) * ((u : ℚ) + (-128)) +
      (-208.120) * ((v : ℚ) + (-128))) / 256 + 0.5)
  , pixelCast ((298.082 * ((y : ℚ) + (-16)) + 516.411 * ((u : ℚ) + (-128)) +
      0 * ((v : ℚ) + (-128))) / 256 + 0.5) )

end ImageResizer

namespace ImageResizer

/-- C2 counterexample: RGB (0,1,20) converts to YUV (18,136,126) and back to
RGB (0,1,18), so the blue channel moves by 2, falsifying the claimed +-1
bound for RGB->YUV444->RGB; and YUV (16,255,255) (out-of-gamut chroma)
converts to RGB (203,0,255) and back to YUV (93,210,199), falsifying the
claimed +-1 bound for YUV444->RGB->YUV444. -/
theorem pixelCast_eq_of {x : ℚ} {n : ℤ} (h0 : 0 ≤ x) (h255 : x ≤ 255)
    (hn : (n : ℚ) ≤ x) (hn1 : x < (n : ℚ) + 1) : pixelCast x = n := by
  rw [pixelCast_eq_floor h0 h255]
  rw [Int.floor_eq_iff]
  exact ⟨hn, hn1⟩

theorem pixelCast_eq_zero {x : ℚ} (h : x < 0) : pixelCast x = 0 := by
  unfold pixelCast CCLAMP
  rw [if_pos h, Int.floor_zero]

theorem pixelCast_eq_top {x : ℚ} (h : 255 < x) : pixelCast x = 255 := by
  unfold pixelCast CCLAMP
  rw [if_neg (by linarith : ¬x < 0), if_pos h]
  norm_num

theorem C2_roundtrip_counterexample :
    RGBPixel2YUV 0 1 20 = (18, 136, 126) ∧
    YUVPixel2RGB 18 136 126 = (0, 1, 18) ∧
    ¬(|(18 : ℤ) - 20| ≤ 1) ∧
    YUVPixel2RGB 16 255 255 = (203, 0, 255) ∧
    RGBPixel2YUV 203 0 255 = (93, 210, 199) ∧
    ¬(|(93 : ℤ) - 16| ≤ 1) := by
  refine ⟨?_, ?_, by decide, ?_, ?_, by decide⟩ <;>
    · simp only [RGBPixel2YUV, YUVPixel2RGB, Prod.mk.injEq]
      norm_num
      refine ⟨?_, ?_, ?_⟩ <;>
        first
        | (apply pixelCast_eq_zero; norm_num)
        | (apply pixelCast_eq_top; norm_num)
        | (apply pixelCast_eq_of <;> norm_num)

end ImageResizer

namespace ImageResizer

set_option maxHeartbeats 2000000 in
/-- C2 amended: for every 8-bit RGB pixel, converting to YUV444 via
`RGBPixel2YUV` and back via `YUVPixel2RGB` moves the R and G channels by at
most 1 and the B channel by at most 2.  (The +-1 claim fails on B, and the
YUV444->RGB->YUV444 direction fails entirely for out-of-gamut chroma; see
the counterexample.) -/
theorem C2_rgb_roundtrip_amended (r g b : ℤ)
    (hr0 : 0 ≤ r) (hr1 : r ≤ 255) (hg0 : 0 ≤ g) (hg1 : g ≤ 255)
    (hb0 : 0 ≤ b) (hb1 : b ≤ 255) :
    |(YUVPixel2RGB (RGBPixel2YUV r g b).1 (RGBPixel2YUV r g b).2.1
        (RGBPixel2YUV r g b).2.2).1 - r| ≤ 1 ∧
    |(YUVPixel2RGB (RGBPixel2YUV r g b).1 (RGBPixel2YUV r g b).2.1
        (RGBPixel2YUV r g b).2.2).2.1 - g| ≤ 1 ∧
    |(YUVPixel2RGB (RGBPixel2YUV r g b).1 (RGBPixel2YUV r g b).2.1
        (RGBPixel2YUV r g b).2.2).2.2 - b| ≤ 2 := by
  have hr0Q : (0 : ℚ) ≤ (r : ℚ) := by exact_mod_cast hr0
  have hr1Q : (r : ℚ) ≤ 255 := by exact_mod_cast hr1
  have hg0Q : (0 : ℚ) ≤ (g : ℚ) := by exact_mod_cast hg0
  have hg1Q : (g : ℚ) ≤ 255 := by exact_mod_cast hg1
  have hb0Q : (0 : ℚ) ≤ (b : ℚ) := by exact_mod_cast hb0
  have hb1Q : (b : ℚ) ≤ 255 := by exact_mod_cast hb1
  obtain ⟨Y, hYset⟩ : ∃ y : ℤ, (RGBPixel2YUV r g b).1 = y := ⟨_, rfl⟩
  obtain ⟨U, hUset⟩ : ∃ u : ℤ, (RGBPixel2YUV r g b).2.1 = u := ⟨_, rfl⟩
  obtain ⟨V, hVset⟩ : ∃ v : ℤ, (RGBPixel2YUV r g b).2.2 = v := ⟨_, rfl⟩
  rw [hYset, hUset, hVset]
  have hYfl : Y = ⌊(65.738 * (r : ℚ) + 129.057 * (g : ℚ) + 25.064 * (b : ℚ)) / 256 + 16 + 0.5⌋ := by
    rw [← hYset]
    simp only [RGBPixel2YUV]
    exact pixelCast_eq_floor (by linarith) (by linarith)
  have hUfl : U = ⌊((-37.946) * (r : ℚ) + (-74.494) * (g : ℚ) + 112.439 * (b : ℚ)) / 256 + 128 + 0.5⌋ := by
    rw [← hUset]
    simp only [RGBPixel2YUV]
    exact pixelCast_eq_floor (by linarith) (by linarith)
  have hVfl : V = ⌊(112.439 * (r : ℚ) + (-94.154) * (g : ℚ) + (-18.285) * (b : ℚ)) / 256 + 128 + 0.5⌋ := by
    rw [← hVset]
    simp only [RGBPixel2YUV]
    exact pixelCast_eq_floor (by linarith) (by linarith)
  have hY1 : (Y : ℚ) ≤ (65.738 * (r : ℚ) + 129.057 * (g : ℚ) + 25.064 * (b : ℚ)) / 256 + 16 + 0.5 := by rw [hYfl]; exact_mod_cast Int.floor_le _
  have hY2 : ((65.738 * (r : ℚ) + 129.057 * (g : ℚ) + 25.064 * (b : ℚ)) / 256 + 16 + 0.5) - 1 < (Y : ℚ) := by rw [hYfl]; exact_mod_cast Int.sub_one_lt_floor _
  have hU1 : (U : ℚ) ≤ ((-37.946) * (r : ℚ) + (-74.494) * (g : ℚ) + 112.439 * (b : ℚ)) / 256 + 128 + 0.5 := by rw [hUfl]; exact_mod_cast Int.floor_le _
  have hU2 : (((-37.946) * (r : ℚ) + (-74.494) * (g : ℚ) + 112.439 * (b : ℚ)) / 256 + 128 + 0.5) - 1 < (U : ℚ) := by rw [hUfl]; exact_mod_cast Int.sub_one_lt_floor _
  have hV1 : (V : ℚ) ≤ (112.439 * (r : ℚ) + (-94.154) * (g : ℚ) + (-18.285) * (b : ℚ)) / 256 + 128 + 0.5 := by rw [hVfl]; exact_mod_cast Int.floor_le _
  have hV2 : ((112.439 * (r : ℚ) + (-94.154) * (g : ℚ) + (-18.285) * (b : ℚ)) / 256 + 128 + 0.5) - 1 < (V : ℚ) := by rw [hVfl]; exact_mod_cast Int.sub_one_lt_floor _
  have hR : (YUVPixel2RGB Y U V).1 = pixelCast ((298.082 * ((Y : ℚ) + (-16)) + 0 * ((U : ℚ) + (-128)) + 408.583 * ((V : ℚ) + (-128))) / 256 + 0.5) := by
    simp only [YUVPixel2RGB]
  have hG : (YUVPixel2RGB Y U V).2.1 = pixelCast ((298.082 * ((Y : ℚ) + (-16)) + (-100.291) * ((U : ℚ) + (-128)) + (-208.120) * ((V : ℚ) + (-128))) / 256 + 0.5) := by
    simp only [YUVPixel2RGB]
  have hB : (YUVPixel2RGB Y U V).2.2 = pixelCast ((298.082 * ((Y : ℚ) + (-16)) + 516.411 * ((U : ℚ) + (-128)) + 0 * ((V : ℚ) + (-128))) / 256 + 0.5) := by
    simp only [YUVPixel2RGB]
  refine ⟨?_, ?_, ?_⟩
  · rw [hR]
    have hclose := pixelCast_close (x := (298.082 * ((Y : ℚ) + (-16)) + 0 * ((U : ℚ) + (-128)) + 408.583 * ((V : ℚ) + (-128))) / 256 + 0.5) (n := r) (k := 1)
      hr0 hr1 (by norm_num)
      (by push_cast
          linarith)
      (by push_cast
          linarith)
    rw [abs_le]
    exact ⟨by linarith [hclose.1], by linarith [hclose.2]⟩
  · rw [hG]
    have hclose := pixelCast_close (x := (298.082 * ((Y : ℚ) + (-16)) + (-100.291) * ((U : ℚ) + (-128)) + (-208.120) * ((V : ℚ) + (-128))) / 256 + 0.5) (n := g) (k := 1)
      hg0 hg1 (by norm_num)
      (by push_cast
          linarith)
      (by push_cast
          linarith)
    rw [abs_le]
    exact ⟨by linarith [hclose.1], by linarith [hclose.2]⟩
  · rw [hB]
    have hclose := pixelCast_close (x := (298.082 * ((Y : ℚ) + (-16)) + 516.411 * ((U : ℚ) + (-128)) + 0 * ((V : ℚ) + (-128))) / 256 + 0.5) (n := b) (k := 2)
      hb0 hb1 (by norm_num)
      (by push_cast
          linarith)
      (by push_cast
          linarith)
    rw [abs_le]
    exact ⟨by linarith [hclose.1], by linarith [hclose.2]⟩

/-- Witness for C2 at the pixel (0, 0, 0). -/
theorem C2_rgb_roundtrip_amended_witness :
    |(YUVPixel2RGB (RGBPixel2YUV 0 0 0).1 (RGBPixel2YUV 0 0 0).2.1
        (RGBPixel2YUV 0 0 0).2.2).1 - 0| ≤ 1 ∧
    |(YUVPixel2RGB (RGBPixel2YUV 0 0 0).1 (RGBPixel2YUV 0 0 0).2.1
        (RGBPixel2YUV 0 0 0).2.2).2.1 - 0| ≤ 1 ∧
    |(YUVPixel2RGB (RGBPixel2YUV 0 0 0).1 (RGBPixel2YUV 0 0 0).2.1
        (RGBPixel2YUV 0 0 0).2.2).2.2 - 0| ≤ 2 :=
  C2_rgb_roundtrip_amended 0 0 0 (by norm_num) (by norm_num) (by norm_num)
    (by norm_num) (by norm_num) (by norm_num)

end ImageResizer

namespace ImageResizer

/-- A double-precision three-plane image as consumed by `ResizeImage`
(`IMAGE` with `dblPixArray` storage).  `CreateImage` calloc-initializes the
plane buffers, so unwritten samples are 0. -/
structure DImage where
  colorSpace : ColorSpaces
  width : ℕ
  height : ℕ
  data : Fin 3 → ℕ → ℕ → ℝ

/-- Horizontal chroma increment per color space (ImageResize.cpp lines
367-379). -/
def xincOf : ColorSpaces → ℕ
  | .YUV420 => 2
  | .YUV422 => 2
  | _ => 1

/-- Vertical chroma increment per color space (ImageResize.cpp lines
367-379). -/
def yincOf : ColorSpaces → ℕ
  | .YUV420 => 2
  | _ => 1

/-- `Filter1DHorz` from ImageResize.cpp (lines 235-247): weighted sum of the
contributing row pixels, divided by the stored weight sum, clamped to
`[0, 1]`. -/
noncomputable def Filter1DHorz (imgIn : DImage) (row : RowState)
    (plane : Fin 3) (y x : ℕ) : ℝ :=
  CCLAMP ((row.entries.map (fun e => e.2 * imgIn.data plane y e.1.toNat)).sum /
    row.weightsSum) 0 1

/-- `Filter1DVert` from ImageResize.cpp (lines 250-262): same as the
horizontal filter but walking a column. -/
noncomputable def Filter1DVert (tmp : DImage) (row : RowState)
    (plane : Fin 3) (y x : ℕ) : ℝ :=
  CCLAMP ((row.entries.map (fun e => e.2 * tmp.data plane e.1.toNat x)).sum /
    row.weightsSum) 0 1

/-- The chroma contribution table of the horizontal pass (ImageResize.cpp
lines 389-400): rebuilt over the halved widths for YUV420/YUV422, otherwise
aliased to the luma table. -/
noncomputable def horzUVRow (imgIn : DImage) (outW : ℕ) (edgeMethod : EdgeMethod)
    (x : ℕ) : RowState :=
  if imgIn.colorSpace = .YUV420 ∨ imgIn.colorSpace = .YUV422 then
    contribRow (imgIn.width / 2) (outW / 2) edgeMethod x
  else contribRow imgIn.width outW edgeMethod x

/-- The data written by the horizontal pass of `ResizeImage` (ImageResize.cpp
lines 402-423): plane 0 over `inHeight x outWidth`, chroma planes over the
subsampled grid; everything outside stays at the calloc value 0. -/
noncomputable def resizeHorzData (imgIn : DImage) (outW : ℕ)
    (edgeMethod : EdgeMethod) : Fin 3 → ℕ → ℕ → ℝ := fun plane y x =>
  if plane = 0 then
    if y < imgIn.height ∧ x < outW then
      Filter1DHorz imgIn (contribRow imgIn.width outW edgeMethod x) plane y x
    else 0
  else
    if y < imgIn.height / yincOf imgIn.colorSpace ∧ x < outW / xincOf imgIn.colorSpace then
      Filter1DHorz imgIn (horzUVRow imgIn outW edgeMethod x) plane y x
    else 0

/-- The intermediate image of the horizontal pass (`imageTmp`,
ImageResize.cpp line 382): same color space, output width, input height. -/
noncomputable def resizeHorz (imgIn : DImage) (outW : ℕ)
    (edgeMethod : EdgeMethod) : DImage :=
  { colorSpace := imgIn.colorSpace
    width := outW
    height := imgIn.height
    data := resizeHorzData imgIn outW edgeMethod }

/-- The chroma contribution table of the vertical pass (ImageResize.cpp
lines 436-449): rebuilt over the halved heights only for YUV420, otherwise
aliased to the luma table. -/
noncomputable def vertUVRow (tmp : DImage) (outH : ℕ) (edgeMethod : EdgeMethod)
    (y : ℕ) : RowState :=
  if tmp.colorSpace = .YUV420 then
    contribRow (tmp.height / 2) (outH / 2) edgeMethod y
  else contribRow tmp.height outH edgeMethod y

/-- The data written by the vertical pass of `ResizeImage` (ImageResize.cpp
lines 451-472) into the destination image; samples outside the written
regions keep the destination value. -/
noncomputable def resizeVertData (tmp imgOut : DImage)
    (edgeMethod : EdgeMethod) : Fin 3 → ℕ → ℕ → ℝ := fun plane y x =>
  if plane = 0 then
    if y < imgOut.height ∧ x < imgOut.width then
      Filter1DVert tmp (contribRow tmp.height imgOut.height edgeMethod y) plane y x
    else imgOut.data plane y x
  else
    if y < imgOut.height / yincOf tmp.colorSpace ∧
        x < imgOut.width / xincOf tmp.colorSpace then
      Filter1DVert tmp (vertUVRow tmp imgOut.height edgeMethod y) plane y x
    else imgOut.data plane y x

/-- `ResizeImage` from ImageResize.cpp (lines 357-479): if the output size
equals the input size the image is copied verbatim (`CopyImage`); otherwise
a horizontal pass runs into `imageTmp`, and if the heights already agree the
temp image is copied verbatim into the output, else a vertical pass
produces the output. -/
noncomputable def ResizeImage (imgIn imgOut : DImage)
    (edgeMethod : EdgeMethod) : DImage :=
  if imgIn.width = imgOut.width ∧ imgIn.height = imgOut.height then
    { imgOut with colorSpace := imgIn.colorSpace, data := imgIn.data }
  else
    let imageTmp := resizeHorz imgIn imgOut.width edgeMethod
    if imgIn.height = imgOut.height then
      { imgOut with colorSpace := imageTmp.colorSpace, data := imageTmp.data }
    else
      { imgOut with data := resizeVertData imageTmp imgOut edgeMethod }

theorem Filter1DHorz_single (imgIn : DImage) (plane : Fin 3) (y x : ℕ)
    (h0 : 0 ≤ imgIn.data plane y x) (h1 : imgIn.data plane y x ≤ 1) :
    Filter1DHorz imgIn ⟨[((x : ℤ), 1)], 1, 1⟩ plane y x = imgIn.data plane y x := by
  unfold Filter1DHorz
  simp only [List.map_cons, List.map_nil, List.sum_cons, List.sum_nil, Int.toNat_natCast,
    one_mul, add_zero, div_one]
  exact CCLAMP_eq_self h0 h1

end ImageResizer

namespace ImageResizer

/-- C3: resizing to identical dimensions is a pixel-exact copy under every
edge policy (the `CopyImage` shortcut); a vertical pass whose in/out height
is unchanged is an exact copy of the horizontal-pass result (the second
`CopyImage` shortcut); and a horizontal pass whose in/out width is unchanged
is an exact copy along that axis on every written sample, for linear-domain
images (samples in `[0, 1]`, which the de-gamma stage guarantees). -/
theorem C3_resize_identity :
    (∀ (imgIn imgOut : DImage) (edgeMethod : EdgeMethod),
      imgIn.width = imgOut.width → imgIn.height = imgOut.height →
      ∀ (plane : Fin 3) (y x : ℕ),
        (ResizeImage imgIn imgOut edgeMethod).data plane y x = imgIn.data plane y x) ∧
    (∀ (imgIn imgOut : DImage) (edgeMethod : EdgeMethod),
      imgIn.width ≠ imgOut.width → imgIn.height = imgOut.height →
      (ResizeImage imgIn imgOut edgeMethod).data =
        (resizeHorz imgIn imgOut.width edgeMethod).data) ∧
    (∀ (imgIn : DImage) (edgeMethod : EdgeMethod),
      1 ≤ imgIn.width →
      (∀ plane y x, 0 ≤ imgIn.data plane y x ∧ imgIn.data plane y x ≤ 1) →
      ∀ (plane : Fin 3) (y x : ℕ),
        (plane = 0 → y < imgIn.height → x < imgIn.width →
          (resizeHorz imgIn imgIn.width edgeMethod).data plane y x =
            imgIn.data plane y x) ∧
        (plane ≠ 0 → y < imgIn.height / yincOf imgIn.colorSpace →
          x < imgIn.width / xincOf imgIn.colorSpace →
          (resizeHorz imgIn imgIn.width edgeMethod).data plane y x =
            imgIn.data plane y x)) := by
  refine ⟨?_, ?_, ?_⟩
  · intro imgIn imgOut edgeMethod hw hh plane y x
    unfold ResizeImage
    rw [if_pos ⟨hw, hh⟩]
  · intro imgIn imgOut edgeMethod hw hh
    unfold ResizeImage
    rw [if_neg (by intro h; exact hw h.1), if_pos hh]
  · intro imgIn edgeMethod hw hrange plane y x
    constructor
    · intro hp hy hx
      subst hp
      unfold resizeHorz resizeHorzData
      simp only [if_pos rfl, if_pos (And.intro hy hx)]
      rw [contribRow_identity imgIn.width hw edgeMethod x hx]
      exact Filter1DHorz_single imgIn 0 y x (hrange 0 y x).1 (hrange 0 y x).2
    · intro hp hy hx
      unfold resizeHorz resizeHorzData
      dsimp only
      rw [if_neg hp, if_pos (And.intro hy hx)]
      unfold horzUVRow
      by_cases hsub : imgIn.colorSpace = .YUV420 ∨ imgIn.colorSpace = .YUV422
      · rw [if_pos hsub]
        have hxinc : xincOf imgIn.colorSpace = 2 := by
          rcases hsub with h | h <;> rw [h] <;> rfl
        rw [hxinc] at hx
        have hd : 1 ≤ imgIn.width / 2 := by omega
        rw [contribRow_identity (imgIn.width / 2) hd edgeMethod x hx]
        exact Filter1DHorz_single imgIn plane y x (hrange plane y x).1 (hrange plane y x).2
      · rw [if_neg hsub]
        have hxinc : xincOf imgIn.colorSpace = 1 := by
          rcases hcs : imgIn.colorSpace <;> first | rfl | (exfalso; apply hsub; simp [hcs])
        rw [hxinc, Nat.div_one] at hx
        rw [contribRow_identity imgIn.width hw edgeMethod x hx]
        exact Filter1DHorz_single imgIn plane y x (hrange plane y x).1 (hrange plane y x).2

/-- Witness for C3 on a concrete 1x1 image with constant sample 1/2. -/
theorem C3_resize_identity_witness :
    (ResizeImage ⟨.RGB, 1, 1, fun _ _ _ => 1 / 2⟩ ⟨.RGB, 1, 1, fun _ _ _ => 0⟩
      .MIRROR).data 0 0 0 = (1 : ℝ) / 2 :=
  C3_resize_identity.1 ⟨.RGB, 1, 1, fun _ _ _ => 1 / 2⟩ ⟨.RGB, 1, 1, fun _ _ _ => 0⟩
    .MIRROR rfl rfl 0 0 0

end ImageResizer

namespace ImageResizer

/-- A single-plane `GetSubPixel` read with the REPEAT policy on a YUV444
intermediate image (Utils.cpp lines 792-801): both coordinates are
edge-resolved, and for YUV444 no chroma address division applies. -/
def getSubPixelRepeat (tdata : ℕ → ℕ → ℕ) (h w : ℕ) (y x : ℤ) : ℕ :=
  tdata (HandleEdgeCase y (h : ℤ) .REPEAT).toNat (HandleEdgeCase x (w : ℤ) .REPEAT).toNat

/-- The 2x2 rounded chroma average of the YUV420 branch of `RGBImage2YUV`
(Utils.cpp lines 427-434), reading one chroma plane of the full-resolution
YUV444 intermediate image at the block whose top-left corner is (y, x). -/
def avg420 (tdata : ℕ → ℕ → ℕ) (h w : ℕ) (y x : ℤ) : ℕ :=
  (getSubPixelRepeat tdata h w y x + getSubPixelRepeat tdata h w y (x + 1) +
    getSubPixelRepeat tdata h w (y + 1) x + getSubPixelRepeat tdata h w (y + 1) (x + 1) +
    2) / 4

/-- The (block-row, block-column) pairs visited by the YUV420 downsample
loops `for (y = 0; y < height; y += 2) for (x = 0; x < width; x += 2)`. -/
def blockList (h w : ℕ) : List (ℕ × ℕ) :=
  (List.range ((h + 1) / 2)).product (List.range ((w + 1) / 2))

/-- One chroma plane produced by the YUV420 downsample of `RGBImage2YUV`
(Utils.cpp lines 423-452): each visited block writes, via
`SetPixel` on the YUV420 output (which divides the chroma address by 2),
the rounded 2x2 average at chroma address (y/2, x/2).  `start` is the
previous content of the destination plane. -/
def downsample420 (tdata : ℕ → ℕ → ℕ) (h w : ℕ) (start : ℕ → ℕ → ℕ) : ℕ → ℕ → ℕ :=
  (blockList h w).foldl
    (fun st c => fun cy cx =>
      if cy = c.1 ∧ cx = c.2 then avg420 tdata h w (2 * c.1) (2 * c.2) else st cy cx)
    start

theorem downsample420_fold (tdata : ℕ → ℕ → ℕ) (h w : ℕ) :
    ∀ (l : List (ℕ × ℕ)) (start : ℕ → ℕ → ℕ) (cy cx : ℕ),
      l.foldl
        (fun st c => fun cy cx =>
          if cy = c.1 ∧ cx = c.2 then avg420 tdata h w (2 * c.1) (2 * c.2) else st cy cx)
        start cy cx =
      if (cy, cx) ∈ l then avg420 tdata h w (2 * cy) (2 * cx) else start cy cx := by
  intro l
  induction l with
  | nil => intro start cy cx; simp
  | cons c rest ih =>
    intro start cy cx
    rw [List.foldl_cons, ih]
    by_cases hmem : (cy, cx) ∈ rest
    · rw [if_pos hmem, if_pos (List.mem_cons.mpr (Or.inr hmem))]
    · rw [if_neg hmem]
      by_cases hc : (cy, cx) = c
      · rw [if_pos (List.mem_cons.mpr (Or.inl hc))]
        have h1 : cy = c.1 ∧ cx = c.2 := by
          constructor <;> rw [← hc]
        rw [if_pos h1, h1.1, h1.2]
      · rw [if_neg (by
          intro h1
          apply hc
          rcases h1 with ⟨h1, h2⟩
          rw [Prod.ext_iff]
          exact ⟨h1, h2⟩)]
        rw [if_neg (by
          intro hmem2
          rcases List.mem_cons.mp hmem2 with h | h
          · exact hc h
          · exact hmem h)]

/-- C8: for every 2x2 block visited during the YUV420 chroma downsample, the
stored chroma sample at block address (cy, cx) equals
`(a + b + c + d + 2) / 4` in integer arithmetic, where a, b, c, d are the
four full-resolution chroma samples of the block as fetched by
`GetSubPixel` with REPEAT. -/
theorem C8_yuv420_downsample (tdata : ℕ → ℕ → ℕ) (h w : ℕ) (start : ℕ → ℕ → ℕ)
    (cy cx : ℕ) (hy : 2 * cy < h) (hx : 2 * cx < w) :
    downsample420 tdata h w start cy cx =
      (getSubPixelRepeat tdata h w (2 * cy) (2 * cx) +
        getSubPixelRepeat tdata h w (2 * cy) (2 * cx + 1) +
        getSubPixelRepeat tdata h w (2 * cy + 1) (2 * cx) +
        getSubPixelRepeat tdata h w (2 * cy + 1) (2 * cx + 1) + 2) / 4 := by
  unfold downsample420
  rw [downsample420_fold]
  rw [if_pos]
  · unfold avg420
    norm_num
  · unfold blockList
    rw [List.pair_mem_product]
    constructor <;> rw [List.mem_range] <;> omega

/-- Witness for C8: the concrete 2x2 chroma block {10, 20, 30, 40} stores
the downsampled value (10 + 20 + 30 + 40 + 2) / 4 = 25. -/
theorem C8_yuv420_downsample_witness :
    downsample420
      (fun y x => if y = 0 then (if x = 0 then 10 else 20) else (if x = 0 then 30 else 40))
      2 2 (fun _ _ => 0) 0 0 = 25 := by
  rw [C8_yuv420_downsample _ 2 2 _ 0 0 (by norm_num) (by norm_num)]
  decide

end ImageResizer
